import Mathlib

/-!
Verification of the benchsrv HTTP handlers (`handlers.go`) and of the
parsing / comparison / formatting engine its spec describes.

The handlers in `src/handlers.go` are embedded shallowly: each handler
becomes a pure Lean function from its request data and the results of its
collaborators to a response together with the trace of collaborator calls
it makes.  Strings are `String` / `List Char`, byte blobs are `List Char`
(the handlers only trim ASCII whitespace and measure length, so a
char-per-byte model is faithful for those operations), machine integers
are `Int` with explicit clamping where Go's `strconv.ParseInt` clamps.

The parser / comparator / formatter (`parse`, `Compare`, `format`) are not
part of the inspected source; they are modelled from the spec and marked
as such in their doc comments.
-/

namespace Benchsrv

/-- ASCII whitespace, as Go's `bytes.TrimSpace` / `strings.TrimSpace` and
the benchmark-line tokenizer treat it for ASCII input. -/
def isSpaceChar (c : Char) : Bool :=
  c = ' ' || c = '\t' || c = '\n' || c = '\r' || c = '\x0b' || c = '\x0c'

/-- Trim leading and trailing whitespace from a character list
(`bytes.TrimSpace` / `strings.TrimSpace` on ASCII data). -/
def trimChars (cs : List Char) : List Char :=
  ((cs.dropWhile isSpaceChar).reverse.dropWhile isSpaceChar).reverse

/-- The suffix of `p` strictly after its last `'/'`; the whole list when no
`'/'` occurs.  This embeds the backward scan of `lastChunk`'s loop
(`for i := len(path)-1; i >= 0; i--`): going left to right, a slash resets
the collected suffix. -/
def afterLastSlash (p : List Char) : List Char :=
  p.foldl (fun acc c => if c = '/' then [] else acc ++ [c]) []

/-- `lastChunk` from handlers.go.  Go indexes `path[len(path)-1]`
unconditionally, which panics on the empty string; the panic is modelled
as `none`. -/
def lastChunk (path : List Char) : Option (List Char) :=
  match path with
  | [] => none
  | c :: cs =>
    let p := c :: cs
    let p := if p.getLast (by simp) = '/' then p.dropLast else p
    some (afterLastSlash p)

/-- Result of Go's `strconv.ParseInt(s, 10, 64)`: success, a syntax
error (value 0), or a range error (value clamped to the extreme int64 of
the appropriate sign). -/
inductive IntParseRes where
  | ok (v : Int)
  | syntaxErr
  | rangeErr (clamped : Int)
  deriving DecidableEq, Repr

/-- Decimal value of a digit list, `none` if empty or any non-digit. -/
def digitsVal (cs : List Char) : Option Nat :=
  if cs = [] then none
  else
    cs.foldl
      (fun acc c =>
        match acc with
        | none => none
        | some n => if c.isDigit then some (n * 10 + (c.toNat - '0'.toNat)) else none)
      (some 0)

/-- Go's `strconv.ParseInt(s, 10, 64)`: optional sign, decimal digits;
empty or invalid digits give a syntax error with value 0; a value outside
int64 range gives a range error with the value clamped to
`±(2^63 - 1) / -2^63` (maximum magnitude of the sign). -/
def goParseInt64 (s : String) : IntParseRes :=
  let cs := s.data
  let signed := match cs with
    | '+' :: r => (false, r)
    | '-' :: r => (true, r)
    | r => (false, r)
  match digitsVal signed.2 with
  | none => .syntaxErr
  | some n =>
    if signed.1 then
      if n > 2 ^ 63 then .rangeErr (-(2 ^ 63)) else .ok (-(n : Int))
    else
      if n ≥ 2 ^ 63 then .rangeErr (2 ^ 63 - 1) else .ok (n : Int)

/-- The integer the Go code actually uses: it discards the error
(`benchID, _ := strconv.ParseInt(...)`), keeping the returned value. -/
def goParseInt64Val (s : String) : Int :=
  match goParseInt64 s with
  | .ok v => v
  | .syntaxErr => 0
  | .rangeErr c => c

/-! ## Parser (modelled from the spec, §4.1)

The parser implementation is not part of the inspected source; the
definitions below are modelled from the spec.  Numeric metric values are
modelled as rationals (a decimal parser over `ℚ`); the spec's
"floating-point number" is represented exactly for the decimal literals
the benchmark format uses. -/

/-- Split a character list on a separator character; the separator is not
kept, empty pieces are. -/
def splitOnChar (sep : Char) : List Char → List (List Char)
  | [] => [[]]
  | c :: cs =>
    let r := splitOnChar sep cs
    if c = sep then [] :: r
    else
      match r with
      | [] => [[c]]
      | h :: t => (c :: h) :: t

/-- Accumulator-based whitespace tokenizer: `acc` holds the current word
reversed. -/
def wordsAux : List Char → List Char → List (List Char)
  | [], acc => if acc = [] then [] else [acc.reverse]
  | c :: cs, acc =>
    if isSpaceChar c then
      if acc = [] then wordsAux cs [] else acc.reverse :: wordsAux cs []
    else wordsAux cs (c :: acc)

/-- The whitespace-delimited tokens of a line. -/
def wordsOf (cs : List Char) : List (List Char) :=
  wordsAux cs []

/-- Modelled from the spec: a numeric token, "parsed as a floating-point
number".  Decimal literals — optional sign, digits with at most one dot,
at least one digit — evaluated exactly in `ℚ`. -/
def parseNum (cs : List Char) : Option ℚ :=
  let signed : ℚ × List Char :=
    match cs with
    | '-' :: r => (-1, r)
    | '+' :: r => (1, r)
    | r => (1, r)
  match splitOnChar '.' signed.2 with
  | [ip] => (digitsVal ip).map fun n => signed.1 * n
  | [ip, fp] =>
    match digitsVal (ip ++ fp) with
    | some n => some (signed.1 * (n : ℚ) / 10 ^ fp.length)
    | none => none
  | _ => none

/-- One benchmark case's metrics: metric key → value, keys unique,
insertion order kept. -/
abbrev Measurement := List (List Char × ℚ)

/-- Association-list update: replace the value at `k` in place, or append
`(k, v)` when `k` is absent.  Used for "last value wins" policies. -/
def upsert {α : Type} (l : List (List Char × α)) (k : List Char) (v : α) :
    List (List Char × α) :=
  match l with
  | [] => [(k, v)]
  | (k', v') :: rest => if k' = k then (k, v) :: rest else (k', v') :: upsert rest k v

/-- Association-list lookup by key. -/
def alookup {α : Type} (l : List (List Char × α)) (k : List Char) : Option α :=
  match l with
  | [] => none
  | (k', v') :: rest => if k' = k then some v' else alookup rest k

/-- Modelled from the spec: consume the tokens after the name and the
iteration count in consecutive `(value, unit)` pairs; a value that fails
numeric parsing skips that single pair; duplicate metric keys — last
value wins; a dangling odd token is dropped. -/
def collectMetrics (acc : Measurement) : List (List Char) → Measurement
  | v :: u :: rest =>
    match parseNum v with
    | some q => collectMetrics (upsert acc u q) rest
    | none => collectMetrics acc rest
  | _ => acc

/-- Modelled from the spec: parse one line.  A candidate line's first
token starts with `Benchmark`; token 1 is the iteration count
(informational); the rest form metric pairs.  A non-candidate line, or a
candidate yielding zero metrics, is skipped (`none`). -/
def parseLine (line : List Char) : Option (List Char × Measurement) :=
  match wordsOf line with
  | name :: _iters :: rest =>
    if ("Benchmark".toList).isPrefixOf name then
      let ms := collectMetrics [] rest
      if ms = [] then none else some (name, ms)
    else none
  | _ => none

/-- A well-formed measurement line in the sense of the spec's input
format (§6.1): first token starts with `Benchmark`, an iteration count
follows, and there is at least one complete `(value, unit)` pair whose
value is numeric. -/
def wellFormedLine (l : List Char) : Prop :=
  ∃ name iters v u rest, wordsOf l = name :: iters :: v :: u :: rest ∧
    ("Benchmark".toList).isPrefixOf name = true ∧ (parseNum v).isSome = true

/-- Failure of the parser: no usable measurements in a blob. -/
structure ParseError where
  reason : String
  deriving DecidableEq, Repr

/-- A parsed run: benchmark name → Measurement, last occurrence wins. -/
abbrev Run := List (List Char × Measurement)

/-- Modelled from the spec: `parse(rawText) -> BenchmarkRun`.  Scans every
line, collects the valid measurement lines (later duplicates of a name
replace earlier ones), and fails with `ParseError` exactly when zero
measurements were collected. -/
def parse (raw : List Char) : Except ParseError Run :=
  let collected := (splitOnChar '\n' raw).filterMap parseLine
  let run := collected.foldl (fun acc nm => upsert acc nm.1 nm.2) []
  if run = [] then .error ⟨"no benchmark measurements found"⟩ else .ok run

/-! ## Comparator and formatter (modelled from the spec, §4.2–4.3) -/

/-- Lexicographic order on keys (byte-wise, as Go string comparison). -/
def keyLe : List Char → List Char → Bool
  | [], _ => true
  | _ :: _, [] => false
  | a :: as, b :: bs => if a = b then keyLe as bs else decide (a < b)

/-- Insert into a `keyLe`-sorted list. -/
def insertSorted (x : List Char) : List (List Char) → List (List Char)
  | [] => [x]
  | y :: ys => if keyLe x y then x :: y :: ys else y :: insertSorted x ys

/-- Insertion sort by `keyLe`. -/
def sortKeys (l : List (List Char)) : List (List Char) :=
  l.foldr insertSorted []

/-- Deduplicated, lexicographically sorted union of two key lists. -/
def unionSorted (xs ys : List (List Char)) : List (List Char) :=
  sortKeys ((xs ++ ys).dedup)

/-- Status of a comparison row: a defined percentage delta, or one of the
`added` / `removed` / `before-zero` flags under which the delta is
undefined. -/
inductive Tag where
  | delta (d : ℚ)
  | added
  | removed
  | beforeZero
  deriving DecidableEq, Repr

/-- One ComparisonRow of the report. -/
structure Row where
  name : List Char
  metric : List Char
  before : Option ℚ
  after : Option ℚ
  tag : Tag
  deriving DecidableEq, Repr

/-- Modelled from the spec: the rows emitted for one benchmark name.
One-sided names yield one `removed`/`added` row per metric; shared names
yield one row per metric key in the union, with
`deltaPercent = (after - before) / before * 100` when both present, and
the `before-zero` flag when `before = 0 ≠ after`. -/
def rowsForName (a b : Run) (n : List Char) : List Row :=
  match alookup a n, alookup b n with
  | some ma, none =>
    (sortKeys (ma.map Prod.fst).dedup).map fun k =>
      { name := n, metric := k, before := alookup ma k, after := none, tag := .removed }
  | none, some mb =>
    (sortKeys (mb.map Prod.fst).dedup).map fun k =>
      { name := n, metric := k, before := none, after := alookup mb k, tag := .added }
  | some ma, some mb =>
    (unionSorted (ma.map Prod.fst) (mb.map Prod.fst)).map fun k =>
      match alookup ma k, alookup mb k with
      | some x, some y =>
        { name := n, metric := k, before := some x, after := some y,
          tag := if x = 0 ∧ y ≠ 0 then .beforeZero else .delta ((y - x) / x * 100) }
      | some x, none =>
        { name := n, metric := k, before := some x, after := none, tag := .removed }
      | none, some y =>
        { name := n, metric := k, before := none, after := some y, tag := .added }
      | none, none =>
        { name := n, metric := k, before := none, after := none, tag := .delta 0 }
  | none, none => []

/-- Failure of the comparator: no overlapping benchmark names. -/
structure ComparisonError where
  reason : String
  deriving DecidableEq, Repr

/-- Names present in both runs. -/
def sharedNames (a b : Run) : List (List Char) :=
  (a.map Prod.fst).filter fun n => (alookup b n).isSome

/-- Modelled from the spec: `compare(left, right) -> ComparisonReport`.
Rows are produced per name of the sorted union; the union-empty guard of
§4.2 and the zero-shared-names failure of the contract both apply. -/
def compareRuns (a b : Run) : Except ComparisonError (List Row) :=
  let names := unionSorted (a.map Prod.fst) (b.map Prod.fst)
  if names = [] then .error ⟨"nothing to compare"⟩
  else if sharedNames a b = [] then .error ⟨"no overlapping benchmark names"⟩
  else .ok (names.flatMap (rowsForName a b))

/-- Render an optional numeric value, `-` as the absence placeholder. -/
def optNumStr : Option ℚ → String
  | none => "-"
  | some q => toString q

/-- Render a row's status column. -/
def tagStr : Tag → String
  | .delta d => toString d ++ "%"
  | .added => "added"
  | .removed => "removed"
  | .beforeZero => "before-zero"

/-- Modelled from the spec: one tab-separated report line per row. -/
def formatRow (r : Row) : String :=
  String.intercalate "\t"
    [String.mk r.name, String.mk r.metric, optNumStr r.before, optNumStr r.after,
     tagStr r.tag]

/-- Modelled from the spec: `format(report) -> bytes`, pure and total; an
empty row list renders a "no common benchmarks" report. -/
def format (rows : List Row) : String :=
  if rows = [] then "no common benchmarks\n"
  else String.intercalate "\n" (rows.map formatRow) ++ "\n"

/-- A stored benchmark record, as the handlers use it (`bench.Content`). -/
structure Bench where
  content : String
  commit : String
  deriving DecidableEq, Repr

/-- Modelled from the spec: the `Compare(a, b Benchmark) ([]byte, error)`
routine the handler calls — parse both blobs, compare, format (§2 control
flow); any stage's failure is returned as an error. -/
def Compare (a b : Bench) : Except String String :=
  match parse a.content.toList with
  | .error e => .error e.reason
  | .ok ra =>
    match parse b.content.toList with
    | .error e => .error e.reason
    | .ok rb =>
      match compareRuns ra rb with
      | .error e => .error e.reason
      | .ok rows => .ok (format rows)

/-! ## HTTP handlers (embedded from `handlers.go`)

Each handler is a pure function of its request data and of its
collaborators' results, returning the response together with the trace of
collaborator calls it performed, in order. -/

/-- Error kind reported by the storage collaborator: the `ErrNotFound`
sentinel, or any other error (`err == ErrNotFound` in Go becomes an
equality test on this kind). -/
inductive StoreErr where
  | notFound
  | other (msg : String)
  deriving DecidableEq, Repr

/-- One collaborator call made while handling a request. -/
inductive Ev where
  | findBenchmark (id : Int)
  | createBenchmark (content : List Char) (commit : String)
  | listBenchmarks
  | compareOp
  deriving DecidableEq, Repr

/-- Whether an event is a call to the storage collaborator (as opposed to
the in-process comparison routine). -/
def isStoreCall : Ev → Bool
  | .compareOp => false
  | _ => true

/-- An HTTP response: status code and body. -/
structure Response where
  status : Nat
  body : String
  deriving DecidableEq, Repr

/-- `signed` from handlers.go: the stubbed signature check — the body is
a TODO comment and `return true`. -/
def signed (sig : String) (content : List Char) (secret : String) : Bool :=
  true

/-- `strings.TrimSpace` on a Lean string (ASCII whitespace). -/
def trimStr (s : String) : String :=
  String.mk (trimChars s.data)

/-- `uploadHandler` from handlers.go.  `formErr` models a failing
`ParseMultipartForm`, `readErr` a failing `ReadAll`; `create` is
`store.CreateBenchmark`, and the returned list is the trace of store
calls. -/
def uploadHandler (create : List Char → String → Except String Int)
    (secret : String) (formErr : Option String) (readErr : Option String)
    (rawContent : List Char) (rawCommit : String) (sig : String) :
    Response × List Ev :=
  match formErr with
  | some e => ({ status := 400, body := "parse: " ++ e }, [])
  | none =>
    match readErr with
    | some e => ({ status := 400, body := "read content: " ++ e }, [])
    | none =>
      let content := trimChars rawContent
      if content = [] then ({ status := 400, body := "content is required" }, [])
      else
        let commit := trimStr rawCommit
        if commit = "" then ({ status := 400, body := "commit is required" }, [])
        else if ¬ signed sig content secret then ({ status := 401, body := "" }, [])
        else if content.length < 10 then ({ status := 400, body := "" }, [])
        else
          match create content commit with
          | .error e =>
            ({ status := 500, body := "cannot upload: " ++ e },
             [.createBenchmark content commit])
          | .ok benchID =>
            ({ status := 201, body := toString benchID ++ "\n" },
             [.createBenchmark content commit])

/-- `showBenchmark` from handlers.go.  `store` is
`store.FindBenchmark`; Go's panic on indexing an empty path is `none`. -/
def showBenchmark (store : Int → Except StoreErr Bench) (path : List Char) :
    Option (Response × List Ev) :=
  match lastChunk path with
  | none => none
  | some seg =>
    let benchID := goParseInt64Val (String.mk seg)
    if benchID = 0 then some ({ status := 404, body := "benchmark not found" }, [])
    else
      match store benchID with
      | .ok bench =>
        some ({ status := 200, body := bench.content }, [.findBenchmark benchID])
      | .error .notFound =>
        some ({ status := 404, body := "benchmark not found" }, [.findBenchmark benchID])
      | .error (.other m) =>
        some ({ status := 500, body := m }, [.findBenchmark benchID])

/-- `compareHandler` from handlers.go.  `qa`, `qb` are the `a` and `b`
query parameters (`""` when absent), `path` is `r.URL.Path`. -/
def compareHandler (store : Int → Except StoreErr Bench) (qa qb path : String) :
    Response × List Ev :=
  if qa = "" ∨ qb = "" then
    ({ status := 400,
       body := "Missing benchmarks IDs. Usage " ++ path ++ "?a=<ID>&b=<ID>" }, [])
  else
    let aID := goParseInt64Val qa
    match store aID with
    | .error e =>
      ({ status := if e = .notFound then 404 else 500,
         body := "cannot find benchmark " ++ toString aID }, [.findBenchmark aID])
    | .ok a =>
      let bID := goParseInt64Val qb
      match store bID with
      | .error e =>
        ({ status := if e = .notFound then 404 else 500,
           body := "cannot find benchmark " ++ toString bID },
         [.findBenchmark aID, .findBenchmark bID])
      | .ok b =>
        match Compare a b with
        | .error m =>
          ({ status := 500, body := "cannot compare: " ++ m },
           [.findBenchmark aID, .findBenchmark bID, .compareOp])
        | .ok out =>
          ({ status := 200, body := out },
           [.findBenchmark aID, .findBenchmark bID, .compareOp])

/-! ## Helper lemmas -/

theorem afterLastSlash_concat (ps : List Char) (c : Char) :
    afterLastSlash (ps ++ [c]) =
      if c = '/' then [] else afterLastSlash ps ++ [c] := by
  unfold afterLastSlash
  rw [List.foldl_append]
  simp

theorem afterLastSlash_no_slash (p : List Char) : '/' ∉ afterLastSlash p := by
  induction p using List.reverseRecOn with
  | nil => simp [afterLastSlash]
  | append_singleton ps c ih =>
    rw [afterLastSlash_concat]
    by_cases hc : c = '/'
    · simp [hc]
    · simp [hc, List.mem_append]
      exact ⟨ih, fun h => hc h.symm⟩

theorem afterLastSlash_decomp (p : List Char) :
    ∃ pre, p = pre ++ afterLastSlash p ∧
      (pre = [] ∨ pre.getLast? = some '/') := by
  induction p using List.reverseRecOn with
  | nil => exact ⟨[], by simp [afterLastSlash]⟩
  | append_singleton ps c ih =>
    rw [afterLastSlash_concat]
    by_cases hc : c = '/'
    · subst hc
      exact ⟨ps ++ ['/'], by simp⟩
    · obtain ⟨pre, hpre, hlast⟩ := ih
      refine ⟨pre, ?_, hlast⟩
      simp [hc]
      conv_lhs => rw [hpre]
      simp

theorem trimChars_eq_rdrop (l : List Char) :
    trimChars l = List.rdropWhile isSpaceChar (List.dropWhile isSpaceChar l) := rfl

theorem trim_head_not_space (l : List Char) (c : Char) (cs : List Char)
    (htrim : trimChars l = c :: cs) : isSpaceChar c = false := by
  have hx : List.dropWhile isSpaceChar (List.dropWhile isSpaceChar l) =
      List.dropWhile isSpaceChar l := List.dropWhile_idempotent _ _
  obtain ⟨t, ht⟩ := List.rdropWhile_prefix isSpaceChar (List.dropWhile isSpaceChar l)
  rw [trimChars_eq_rdrop] at htrim
  rw [htrim] at ht
  rw [← ht] at hx
  by_cases hc : isSpaceChar c
  · exfalso
    rw [List.cons_append, List.dropWhile_cons, if_pos hc] at hx
    have hlen := (List.dropWhile_suffix (l := cs ++ t) isSpaceChar).length_le
    rw [hx] at hlen
    simp at hlen
  · simpa using hc

theorem trim_getLast_not_space (l : List Char) (h : trimChars l ≠ []) :
    isSpaceChar ((trimChars l).getLast h) = false := by
  have hb : List.rdropWhile isSpaceChar (trimChars l) = trimChars l := by
    rw [trimChars_eq_rdrop]
    exact List.rdropWhile_idempotent _ _
  have := List.rdropWhile_eq_self_iff.mp hb h
  simpa using this

theorem trimChars_dropWhile (l : List Char) :
    List.dropWhile isSpaceChar (trimChars l) = trimChars l := by
  rcases he : trimChars l with _ | ⟨c, cs⟩
  · rfl
  · rw [List.dropWhile_cons, if_neg (by simp [trim_head_not_space l c cs he])]

theorem trimChars_idem (l : List Char) : trimChars (trimChars l) = trimChars l := by
  rw [trimChars_eq_rdrop (trimChars l), trimChars_dropWhile l, trimChars_eq_rdrop l]
  exact List.rdropWhile_idempotent _ _

theorem trimStr_idem (s : String) : trimStr (trimStr s) = trimStr s := by
  simp only [trimStr, String.data]
  rw [trimChars_idem]

theorem getLast_eq_of_eq {l₁ l₂ : List Char} (h : l₁ = l₂) (h₁ : l₁ ≠ []) :
    l₁.getLast h₁ = l₂.getLast (h ▸ h₁) := by
  subst h
  rfl

/-- The properties C8 asserts of the arguments the store's create
operation receives, derived from the guards in scope at the call site. -/
theorem create_args_trimmed (rawContent : List Char) (rawCommit : String)
    (c : List Char) (cm : String)
    (h2 : trimStr rawCommit ≠ "") (h3 : ¬ (trimChars rawContent).length < 10)
    (hcc : trimChars rawContent = c) (hcm : trimStr rawCommit = cm) :
    c = trimChars rawContent ∧ cm = trimStr rawCommit ∧
    trimChars c = c ∧ 10 ≤ c.length ∧ cm ≠ "" ∧ trimStr cm = cm ∧
    (∀ hne : c ≠ [], isSpaceChar (c.head hne) = false ∧
      isSpaceChar (c.getLast hne) = false) := by
  refine ⟨hcc.symm, hcm.symm, ?_, ?_, ?_, ?_, ?_⟩
  · rw [← hcc, trimChars_idem]
  · rw [← hcc]
    exact Nat.le_of_not_lt h3
  · rw [← hcm]
    exact h2
  · rw [← hcm, trimStr_idem]
  · intro hne
    rcases c with _ | ⟨d, ds⟩
    · exact absurd rfl hne
    · constructor
      · rw [List.head_cons]
        exact trim_head_not_space rawContent d ds hcc
      · have hraw : trimChars rawContent ≠ [] := by rw [hcc]; simp
        have hgl := trim_getLast_not_space rawContent hraw
        rw [getLast_eq_of_eq hcc hraw] at hgl
        exact hgl

theorem upsert_ne_nil {α : Type} (l : List (List Char × α)) (k : List Char) (v : α) :
    upsert l k v ≠ [] := by
  cases l with
  | nil => simp [upsert]
  | cons h t =>
    rcases h with ⟨k', v'⟩
    by_cases hk : k' = k <;> simp [upsert, hk]

theorem foldl_upsert_eq_nil {α : Type} (l : List (List Char × α)) :
    ∀ acc : List (List Char × α),
      (l.foldl (fun a nm => upsert a nm.1 nm.2) acc = [] ↔ l = [] ∧ acc = []) := by
  induction l with
  | nil => intro acc; simp
  | cons h t ih =>
    intro acc
    simp only [List.foldl_cons]
    rw [ih]
    constructor
    · rintro ⟨-, hu⟩
      exact absurd hu (upsert_ne_nil _ _ _)
    · rintro ⟨hcons, -⟩
      simp at hcons

theorem collectMetrics_ne_nil (acc : Measurement) (ts : List (List Char))
    (h : acc ≠ []) : collectMetrics acc ts ≠ [] := by
  induction acc, ts using collectMetrics.induct with
  | case1 acc v u rest q hq ih =>
    simp only [collectMetrics, hq]
    exact ih (upsert_ne_nil _ _ _)
  | case2 acc v u rest hq ih =>
    simp only [collectMetrics, hq]
    exact ih h
  | case3 acc ts hts =>
    simpa [collectMetrics, hts] using h

theorem parse_error_iff (raw : List Char) :
    parse raw = .error ⟨"no benchmark measurements found"⟩ ↔
      (splitOnChar '\n' raw).filterMap parseLine = [] := by
  unfold parse
  constructor
  · intro h
    by_contra hne
    rw [if_neg (by
      rw [foldl_upsert_eq_nil]
      rintro ⟨hc, -⟩
      exact hne hc)] at h
    exact Except.noConfusion h
  · intro h
    rw [if_pos (by rw [foldl_upsert_eq_nil]; exact ⟨h, rfl⟩)]

theorem parse_ok_ne_nil (raw : List Char) (run : Run) (h : parse raw = .ok run) :
    run ≠ [] := by
  simp only [parse] at h
  split at h
  · exact Except.noConfusion h
  · next hne =>
    cases h
    exact hne

theorem alookup_isSome_of_mem {α : Type} (l : List (List Char × α)) (n : List Char)
    (h : n ∈ l.map Prod.fst) : (alookup l n).isSome := by
  induction l with
  | nil => simp at h
  | cons hd t ih =>
    rcases hd with ⟨k, v⟩
    by_cases hk : k = n
    · simp [alookup, hk]
    · simp only [List.map_cons, List.mem_cons] at h
      rcases h with h | h
      · exact absurd h.symm hk
      · simpa [alookup, hk] using ih h

theorem insertSorted_ne_nil (x : List Char) (l : List (List Char)) :
    insertSorted x l ≠ [] := by
  cases l with
  | nil => simp [insertSorted]
  | cons y ys =>
    simp only [insertSorted]
    split <;> simp

theorem sortKeys_eq_nil_iff (l : List (List Char)) : sortKeys l = [] ↔ l = [] := by
  cases l with
  | nil => simp [sortKeys]
  | cons x t =>
    simp only [sortKeys, List.foldr_cons]
    constructor
    · intro h
      exact absurd h (insertSorted_ne_nil _ _)
    · intro h
      exact List.noConfusion h

theorem rowsForName_self_delta_zero (A : Run) (n : List Char) :
    ∀ r ∈ rowsForName A A n, r.tag = .delta 0 := by
  intro r hr
  unfold rowsForName at hr
  rcases halo : alookup A n with _ | ma
  · rw [halo] at hr
    simp at hr
  · rw [halo] at hr
    simp only [List.mem_map] at hr
    obtain ⟨k, -, hk⟩ := hr
    rcases hk2 : alookup ma k with _ | x
    · rw [hk2] at hk
      simp only at hk
      rw [← hk]
    · rw [hk2] at hk
      simp only at hk
      rw [← hk]
      simp only
      rw [if_neg (by rintro ⟨h0, hne⟩; exact hne h0)]
      norm_num

/-! ## Claim theorems -/

/-- C9.  For every non-empty input, lastChunk performs only in-bounds
indexing (returns `some`), and the returned value is the suffix following
the last slash of the input after at most one trailing slash was removed;
the returned value never contains a slash.  On the empty input the code
indexes out of bounds (modelled `none`), so non-emptiness is a required
precondition. -/
theorem lastChunk_safe_and_slash_free (path : List Char) (h : path ≠ []) :
    lastChunk [] = none ∧
    ∃ r pre, lastChunk path = some r ∧ '/' ∉ r ∧
      (if path.getLast h = '/' then path.dropLast else path) = pre ++ r ∧
      (pre = [] ∨ pre.getLast? = some '/') := by
  refine ⟨rfl, ?_⟩
  match path, h with
  | c :: cs, _ =>
    set stripped := if (c :: cs).getLast (by simp) = '/'
        then (c :: cs).dropLast else (c :: cs) with hs
    obtain ⟨pre, hpre, hlast⟩ := afterLastSlash_decomp stripped
    exact ⟨afterLastSlash stripped, pre, rfl, afterLastSlash_no_slash stripped,
      hpre, hlast⟩

theorem lastChunk_safe_and_slash_free_witness :
    lastChunk [] = none ∧
    ∃ r pre, lastChunk "/bench/12/".toList = some r ∧ '/' ∉ r ∧
      (if "/bench/12/".toList.getLast (by decide) = '/'
        then "/bench/12/".toList.dropLast else "/bench/12/".toList) = pre ++ r ∧
      (pre = [] ∨ pre.getLast? = some '/') :=
  lastChunk_safe_and_slash_free "/bench/12/".toList (by decide)

/-- C10 counterexample.  The final path segment
"99999999999999999999" does not parse as a decimal 64-bit integer — Go's
ParseInt reports a range error and returns the clamped maximum — yet
showBenchmark does call the storage collaborator (with id 2^63 - 1),
contradicting the claim that no storage call is made. -/
theorem showBenchmark_overflow_calls_store :
    goParseInt64 "99999999999999999999" = .rangeErr (2 ^ 63 - 1) ∧
    showBenchmark (fun _ => .error .notFound) "/benchmarks/99999999999999999999".toList =
      some ({ status := 404, body := "benchmark not found" },
        [.findBenchmark 9223372036854775807]) := by
  constructor
  · decide
  · rfl

/-- C10 (amended).  For every benchmark-detail request whose final URL
path segment fails to parse with a syntax error, or parses to the value
zero, showBenchmark responds 404 Not Found without making any call to the
storage collaborator.  (Segments that are syntactically valid decimals
but outside the 64-bit range are clamped to the extreme value and do
reach the store.) -/
theorem showBenchmark_syntax_err_no_store_call
    (store : Int → Except StoreErr Bench) (path seg : List Char)
    (hseg : lastChunk path = some seg)
    (hparse : goParseInt64 (String.mk seg) = .syntaxErr ∨
      goParseInt64 (String.mk seg) = .ok 0) :
    showBenchmark store path =
      some ({ status := 404, body := "benchmark not found" }, []) := by
  have hval : goParseInt64Val (String.mk seg) = 0 := by
    rcases hparse with h | h <;> simp [goParseInt64Val, h]
  simp [showBenchmark, hseg, hval]

theorem showBenchmark_syntax_err_no_store_call_witness :
    showBenchmark (fun _ => .ok ⟨"x", "y"⟩) "/benchmarks/abc".toList =
      some ({ status := 404, body := "benchmark not found" }, []) :=
  showBenchmark_syntax_err_no_store_call (fun _ => .ok ⟨"x", "y"⟩)
    "/benchmarks/abc".toList "abc".toList (by rfl) (Or.inl (by decide))

/-- C1.  Both for the benchmark-detail and for the compare request, a
storage lookup result is handled by an exact three-way branch: success
proceeds (the content is written / the comparison continues), the
NotFound error kind maps to 404, and any other error maps to 500. -/
theorem lookup_result_three_way_branch
    (store : Int → Except StoreErr Bench) (path seg : List Char)
    (qa qb url : String) (bench a b : Bench) (m m' : String) :
    (lastChunk path = some seg → goParseInt64Val (String.mk seg) ≠ 0 →
      (store (goParseInt64Val (String.mk seg)) = .ok bench →
        showBenchmark store path =
          some ({ status := 200, body := bench.content },
            [.findBenchmark (goParseInt64Val (String.mk seg))])) ∧
      (store (goParseInt64Val (String.mk seg)) = .error .notFound →
        showBenchmark store path =
          some ({ status := 404, body := "benchmark not found" },
            [.findBenchmark (goParseInt64Val (String.mk seg))])) ∧
      (store (goParseInt64Val (String.mk seg)) = .error (.other m) →
        showBenchmark store path =
          some ({ status := 500, body := m },
            [.findBenchmark (goParseInt64Val (String.mk seg))]))) ∧
    (qa ≠ "" → qb ≠ "" →
      (store (goParseInt64Val qa) = .error .notFound →
        (compareHandler store qa qb url).1.status = 404) ∧
      (store (goParseInt64Val qa) = .error (.other m) →
        (compareHandler store qa qb url).1.status = 500) ∧
      (store (goParseInt64Val qa) = .ok a →
        (Ev.findBenchmark (goParseInt64Val qb) ∈ (compareHandler store qa qb url).2) ∧
        (store (goParseInt64Val qb) = .error .notFound →
          (compareHandler store qa qb url).1.status = 404) ∧
        (store (goParseInt64Val qb) = .error (.other m') →
          (compareHandler store qa qb url).1.status = 500) ∧
        (store (goParseInt64Val qb) = .ok b →
          Ev.compareOp ∈ (compareHandler store qa qb url).2))) := by
  constructor
  · intro hseg hid
    refine ⟨?_, ?_, ?_⟩ <;> intro hst <;> simp [showBenchmark, hseg, hid, hst]
  · intro h1 h2
    refine ⟨?_, ?_, ?_⟩
    · intro hst; simp [compareHandler, h1, h2, hst]
    · intro hst; simp [compareHandler, h1, h2, hst]
    · intro hsta
      refine ⟨?_, ?_, ?_, ?_⟩
      · rcases hb : store (goParseInt64Val qb) with e | b'
        · simp [compareHandler, h1, h2, hsta, hb]
        · rcases hc : Compare a b' with mm | outv <;>
            simp [compareHandler, h1, h2, hsta, hb, hc]
      · intro hst; simp [compareHandler, h1, h2, hsta, hst]
      · intro hst; simp [compareHandler, h1, h2, hsta, hst]
      · intro hstb
        rcases hc : Compare a b with mm | outv <;>
          simp [compareHandler, h1, h2, hsta, hstb, hc]

theorem lookup_result_three_way_branch_witness :
    (showBenchmark (fun _ => .ok ⟨"data", "c1"⟩) "/benchmarks/7".toList =
      some ({ status := 200, body := "data" }, [.findBenchmark 7])) ∧
    ((compareHandler (fun _ => .error .notFound) "1" "2" "/compare/").1.status = 404) := by
  constructor
  · exact ((lookup_result_three_way_branch (fun _ => .ok ⟨"data", "c1"⟩)
      "/benchmarks/7".toList "7".toList "1" "2" "/compare/" ⟨"data", "c1"⟩
      ⟨"data", "c1"⟩ ⟨"data", "c1"⟩ "m" "m").1 (by rfl) (by decide)).1 (by rfl)
  · exact ((lookup_result_three_way_branch (fun _ => .error .notFound)
      "/benchmarks/7".toList "7".toList "1" "2" "/compare/" ⟨"data", "c1"⟩
      ⟨"data", "c1"⟩ ⟨"data", "c1"⟩ "m" "m").2 (by decide) (by decide)).1 (by rfl)

/-- C2.  The verifier stub returns true for every signature, content and
secret; hence the 401 Unauthorized branch of uploadHandler is
unreachable, and the upload outcome never depends on the signature
value. -/
theorem signed_always_true_401_unreachable
    (sig sig' secret : String) (content : List Char)
    (create : List Char → String → Except String Int)
    (formErr readErr : Option String) (rawContent : List Char) (rawCommit : String) :
    signed sig content secret = true ∧
    (uploadHandler create secret formErr readErr rawContent rawCommit sig).1.status ≠ 401 ∧
    uploadHandler create secret formErr readErr rawContent rawCommit sig =
      uploadHandler create secret formErr readErr rawContent rawCommit sig' := by
  refine ⟨rfl, ?_, rfl⟩
  cases formErr with
  | some e => simp [uploadHandler]
  | none =>
    cases readErr with
    | some e => simp [uploadHandler]
    | none =>
      simp only [uploadHandler]
      split
      · simp
      · split
        · simp
        · split
          · next h => exact absurd rfl h
          · split
            · simp
            · rcases create (trimChars rawContent) (trimStr rawCommit) with e | id <;> simp

/-- C3.  When both compare query parameters are supplied, both lookups
succeed and the comparison succeeds, the handler makes exactly two
storage calls, both via the find operation, and the response body is
exactly the byte sequence returned by Compare. -/
theorem compareHandler_exact_calls_and_body
    (store : Int → Except StoreErr Bench) (qa qb url : String)
    (a b : Bench) (out : String)
    (h1 : qa ≠ "") (h2 : qb ≠ "")
    (hfa : store (goParseInt64Val qa) = .ok a)
    (hfb : store (goParseInt64Val qb) = .ok b)
    (hc : Compare a b = .ok out) :
    compareHandler store qa qb url =
      ({ status := 200, body := out },
       [.findBenchmark (goParseInt64Val qa), .findBenchmark (goParseInt64Val qb),
        .compareOp]) ∧
    (compareHandler store qa qb url).2.filter isStoreCall =
      [.findBenchmark (goParseInt64Val qa), .findBenchmark (goParseInt64Val qb)] := by
  have hmain : compareHandler store qa qb url =
      ({ status := 200, body := out },
       [.findBenchmark (goParseInt64Val qa), .findBenchmark (goParseInt64Val qb),
        .compareOp]) := by
    simp [compareHandler, h1, h2, hfa, hfb, hc]
  exact ⟨hmain, by rw [hmain]; simp [isStoreCall]⟩

theorem compareHandler_exact_calls_and_body_witness :
    compareHandler
      (fun i => if i = 1 then .ok ⟨"BenchmarkFoo 1 10 ns/op", ""⟩
        else .ok ⟨"BenchmarkFoo 1 12 ns/op", ""⟩) "1" "2" "/compare/" =
      ({ status := 200, body := "BenchmarkFoo\tns/op\t10\t12\t20%\n" },
       [.findBenchmark (goParseInt64Val "1"), .findBenchmark (goParseInt64Val "2"),
        .compareOp]) ∧
    (compareHandler
      (fun i => if i = 1 then .ok ⟨"BenchmarkFoo 1 10 ns/op", ""⟩
        else .ok ⟨"BenchmarkFoo 1 12 ns/op", ""⟩) "1" "2" "/compare/").2.filter isStoreCall =
      [.findBenchmark (goParseInt64Val "1"), .findBenchmark (goParseInt64Val "2")] :=
  compareHandler_exact_calls_and_body
    (fun i => if i = 1 then .ok ⟨"BenchmarkFoo 1 10 ns/op", ""⟩
      else .ok ⟨"BenchmarkFoo 1 12 ns/op", ""⟩) "1" "2" "/compare/"
    ⟨"BenchmarkFoo 1 10 ns/op", ""⟩ ⟨"BenchmarkFoo 1 12 ns/op", ""⟩
    "BenchmarkFoo\tns/op\t10\t12\t20%\n" (by decide) (by decide)
    (by with_unfolding_all rfl) (by with_unfolding_all rfl)
    (by with_unfolding_all rfl)

/-- C7.  Storage lookups and the comparison are invoked at most once per
request: when one of them fails, the request terminates immediately with
an error response, without the failed operation ever being re-invoked —
the trace is closed exactly at the failing call. -/
theorem no_retry_after_failure
    (store : Int → Except StoreErr Bench) (qa qb url : String)
    (path seg : List Char) (e : StoreErr) (a b : Bench) (m : String) :
    (qa ≠ "" → qb ≠ "" →
      (store (goParseInt64Val qa) = .error e →
        (compareHandler store qa qb url).2 = [.findBenchmark (goParseInt64Val qa)] ∧
        (compareHandler store qa qb url).1.status = if e = .notFound then 404 else 500) ∧
      (store (goParseInt64Val qa) = .ok a → store (goParseInt64Val qb) = .error e →
        (compareHandler store qa qb url).2 =
          [.findBenchmark (goParseInt64Val qa), .findBenchmark (goParseInt64Val qb)] ∧
        (compareHandler store qa qb url).1.status = if e = .notFound then 404 else 500) ∧
      (store (goParseInt64Val qa) = .ok a → store (goParseInt64Val qb) = .ok b →
        Compare a b = .error m →
        compareHandler store qa qb url =
          ({ status := 500, body := "cannot compare: " ++ m },
           [.findBenchmark (goParseInt64Val qa), .findBenchmark (goParseInt64Val qb),
            .compareOp]))) ∧
    (lastChunk path = some seg → goParseInt64Val (String.mk seg) ≠ 0 →
      store (goParseInt64Val (String.mk seg)) = .error e →
      ((showBenchmark store path).map Prod.snd =
        some [.findBenchmark (goParseInt64Val (String.mk seg))]) ∧
      ((showBenchmark store path).map (fun x => x.1.status) =
        some (if e = .notFound then 404 else 500))) := by
  constructor
  · intro h1 h2
    refine ⟨?_, ?_, ?_⟩
    · intro hst
      cases e <;> simp [compareHandler, h1, h2, hst]
    · intro hsta hstb
      cases e <;> simp [compareHandler, h1, h2, hsta, hstb]
    · intro hsta hstb hc
      simp [compareHandler, h1, h2, hsta, hstb, hc]
  · intro hseg hid hst
    cases e <;> simp [showBenchmark, hseg, hid, hst]

/-- C8.  Any call uploadHandler makes to the store's create operation
passes content with no leading or trailing whitespace and at least 10
bytes, together with a non-empty whitespace-trimmed commit; requests with
empty or too-short trimmed content, or an empty trimmed commit, are
rejected with 400 before the store is touched; a successful upload
responds 201 Created with the new run's id as the body. -/
theorem uploadHandler_trimmed_create_and_rejects
    (create : List Char → String → Except String Int) (secret : String)
    (formErr readErr : Option String) (rawContent : List Char) (rawCommit : String)
    (sig : String) (c : List Char) (cm : String) (id : Int) :
    ((trimChars rawContent = [] ∨ (trimChars rawContent).length < 10 ∨
        trimStr rawCommit = "") →
      (uploadHandler create secret formErr readErr rawContent rawCommit sig).1.status = 400 ∧
      (uploadHandler create secret formErr readErr rawContent rawCommit sig).2 = []) ∧
    ((uploadHandler create secret formErr readErr rawContent rawCommit sig).2 =
        [.createBenchmark c cm] →
      c = trimChars rawContent ∧ cm = trimStr rawCommit ∧
      trimChars c = c ∧ 10 ≤ c.length ∧ cm ≠ "" ∧ trimStr cm = cm ∧
      (∀ hne : c ≠ [], isSpaceChar (c.head hne) = false ∧
        isSpaceChar (c.getLast hne) = false)) ∧
    (formErr = none → readErr = none → trimChars rawContent ≠ [] →
      ¬ (trimChars rawContent).length < 10 → trimStr rawCommit ≠ "" →
      create (trimChars rawContent) (trimStr rawCommit) = .ok id →
      uploadHandler create secret formErr readErr rawContent rawCommit sig =
        ({ status := 201, body := toString id ++ "\n" },
         [.createBenchmark (trimChars rawContent) (trimStr rawCommit)])) := by
  refine ⟨?_, ?_, ?_⟩
  · intro hrej
    cases formErr with
    | some e => simp [uploadHandler]
    | none =>
      cases readErr with
      | some e => simp [uploadHandler]
      | none =>
        by_cases h1 : trimChars rawContent = []
        · simp [uploadHandler, h1]
        · by_cases h2 : trimStr rawCommit = ""
          · simp [uploadHandler, h1, h2]
          · by_cases h3 : (trimChars rawContent).length < 10
            · simp [uploadHandler, signed, h1, h2, h3]
            · rcases hrej with h | h | h
              · exact absurd h h1
              · exact absurd h h3
              · exact absurd h h2
  · intro htr
    cases formErr with
    | some e => simp [uploadHandler] at htr
    | none =>
      cases readErr with
      | some e => simp [uploadHandler] at htr
      | none =>
        by_cases h1 : trimChars rawContent = []
        · simp [uploadHandler, h1] at htr
        · by_cases h2 : trimStr rawCommit = ""
          · simp [uploadHandler, h1, h2] at htr
          · by_cases h3 : (trimChars rawContent).length < 10
            · simp [uploadHandler, signed, h1, h2, h3] at htr
            · rcases hc : create (trimChars rawContent) (trimStr rawCommit) with e | idv <;>
                · simp [uploadHandler, signed, h1, h2, h3, hc] at htr
                  exact create_args_trimmed rawContent rawCommit c cm h2 h3 htr.1 htr.2
  · intro hform hread h1 h3 h2 hc
    subst hform
    subst hread
    simp [uploadHandler, signed, h1, h2, h3, hc]

theorem uploadHandler_trimmed_create_and_rejects_witness :
    uploadHandler (fun _ _ => .ok 42) "s" none none
      "  BenchmarkFoo 2 5 ns/op ".toList " abc " "" =
      ({ status := 201, body := toString (42 : Int) ++ "\n" },
       [.createBenchmark (trimChars "  BenchmarkFoo 2 5 ns/op ".toList)
         (trimStr " abc ")]) :=
  (uploadHandler_trimmed_create_and_rejects (fun _ _ => .ok 42) "s" none none
    "  BenchmarkFoo 2 5 ns/op ".toList " abc " "" [] "" 42).2.2 rfl rfl
    (by decide) (by decide) (by decide) (by with_unfolding_all rfl)

/-- C4.  parse fails with ParseError reason "no benchmark measurements
found" exactly when scanning the whole input collects zero valid
measurements; in particular any input none of whose lines has a first
token starting with `Benchmark` fails, and any input with at least one
well-formed measurement line succeeds. -/
theorem parse_fails_iff_no_measurements (raw : List Char) :
    (parse raw = .error ⟨"no benchmark measurements found"⟩ ↔
      (splitOnChar '\n' raw).filterMap parseLine = []) ∧
    ((∀ l ∈ splitOnChar '\n' raw, ∀ name rest, wordsOf l = name :: rest →
        ("Benchmark".toList).isPrefixOf name = false) →
      parse raw = .error ⟨"no benchmark measurements found"⟩) ∧
    ((∃ l ∈ splitOnChar '\n' raw, wellFormedLine l) → ∃ run, parse raw = .ok run) := by
  refine ⟨parse_error_iff raw, ?_, ?_⟩
  · intro hno
    rw [parse_error_iff, List.filterMap_eq_nil_iff]
    intro l hl
    rcases hw : wordsOf l with _ | ⟨name, rest⟩
    · simp [parseLine, hw]
    · rcases rest with _ | ⟨iters, rest2⟩
      · simp [parseLine, hw]
      · have hfalse := hno l hl name (iters :: rest2) hw
        simp only [parseLine, hw]
        rw [if_neg (fun hp => by
          rw [hfalse] at hp
          exact Bool.false_ne_true hp)]
  · rintro ⟨l, hl, name, iters, v, u, rest, hw, hpre, hv⟩
    rcases hq : parseNum v with _ | q
    · rw [hq] at hv
      simp at hv
    · have hms : collectMetrics [] (v :: u :: rest) ≠ [] := by
        simp only [collectMetrics, hq]
        exact collectMetrics_ne_nil (upsert [] u q) rest (upsert_ne_nil _ _ _)
      have hsome : parseLine l = some (name, collectMetrics [] (v :: u :: rest)) := by
        simp only [parseLine, hw]
        rw [if_pos hpre]
        simp [hms]
      have hcol : (splitOnChar '\n' raw).filterMap parseLine ≠ [] :=
        List.ne_nil_of_mem (List.mem_filterMap.mpr ⟨l, hl, hsome⟩)
      refine ⟨((splitOnChar '\n' raw).filterMap parseLine).foldl
        (fun a nm => upsert a nm.1 nm.2) [], ?_⟩
      simp only [parse]
      rw [if_neg (by rw [foldl_upsert_eq_nil]; rintro ⟨hcon, -⟩; exact hcol hcon)]

theorem parse_fails_iff_no_measurements_witness :
    parse "no benchmarks here".toList =
      .error ⟨"no benchmark measurements found"⟩ ∧
    (∃ run, parse "noise\nBenchmarkFoo-1 100 5 ns/op\nmore".toList = .ok run) := by
  constructor
  · refine (parse_fails_iff_no_measurements "no benchmarks here".toList).2.1 ?_
    intro l hl name rest hw
    have hlines : splitOnChar '\n' "no benchmarks here".toList =
        ["no benchmarks here".toList] := by decide
    rw [hlines] at hl
    obtain rfl := List.mem_singleton.mp hl
    have hwords : wordsOf "no benchmarks here".toList =
        ["no".toList, "benchmarks".toList, "here".toList] := by decide
    rw [hwords] at hw
    cases hw
    decide
  · refine (parse_fails_iff_no_measurements "noise\nBenchmarkFoo-1 100 5 ns/op\nmore".toList).2.2 ?_
    refine ⟨"BenchmarkFoo-1 100 5 ns/op".toList, by decide, "BenchmarkFoo-1".toList,
      "100".toList, "5".toList, "ns/op".toList, [], by decide, by decide, by decide⟩

/-- C5.  Comparing a valid run (an output of parse) with itself yields a
report in which every row's delta is 0 percent and no row is tagged
added or removed. -/
theorem compare_self_zero_delta (raw : List Char) (A : Run) (hA : parse raw = .ok A) :
    ∃ rows, compareRuns A A = .ok rows ∧
      ∀ r ∈ rows, r.tag = .delta 0 ∧ r.tag ≠ .added ∧ r.tag ≠ .removed := by
  have hAne : A ≠ [] := parse_ok_ne_nil raw A hA
  have hnames : unionSorted (A.map Prod.fst) (A.map Prod.fst) ≠ [] := by
    intro h
    unfold unionSorted at h
    rw [sortKeys_eq_nil_iff, List.dedup_eq_nil] at h
    rcases A with _ | ⟨⟨n, m⟩, t⟩
    · exact hAne rfl
    · simp at h
  have hshared : sharedNames A A ≠ [] := by
    rcases A with _ | ⟨⟨n, m⟩, t⟩
    · exact absurd rfl hAne
    · apply List.ne_nil_of_mem (a := n)
      unfold sharedNames
      rw [List.mem_filter]
      exact ⟨by simp, by simp [alookup]⟩
  have hok : compareRuns A A =
      .ok ((unionSorted (A.map Prod.fst) (A.map Prod.fst)).flatMap (rowsForName A A)) := by
    simp only [compareRuns]
    rw [if_neg hnames, if_neg hshared]
  refine ⟨_, hok, ?_⟩
  intro r hr
  rw [List.mem_flatMap] at hr
  obtain ⟨n, -, hrn⟩ := hr
  have htag := rowsForName_self_delta_zero A n r hrn
  exact ⟨htag, by rw [htag]; simp, by rw [htag]; simp⟩

theorem compare_self_zero_delta_witness :
    ∃ rows, compareRuns [("BenchmarkFoo".toList, [("ns/op".toList, (10 : ℚ))])]
        [("BenchmarkFoo".toList, [("ns/op".toList, (10 : ℚ))])] = .ok rows ∧
      ∀ r ∈ rows, r.tag = .delta 0 ∧ r.tag ≠ .added ∧ r.tag ≠ .removed :=
  compare_self_zero_delta "BenchmarkFoo 1 10 ns/op".toList
    [("BenchmarkFoo".toList, [("ns/op".toList, (10 : ℚ))])]
    (by with_unfolding_all rfl)

/-- C6.  The comparison and formatting pipeline is deterministic: two
invocations on equal inputs produce identical output byte sequences,
both for the Compare routine, the formatter, and the whole compare
handler. -/
theorem pipeline_deterministic (a b a' b' : Bench) (r r' : List Row)
    (store store' : Int → Except StoreErr Bench) (qa qb url qa' qb' url' : String)
    (h1 : a = a') (h2 : b = b') (h3 : r = r') (h4 : store = store')
    (h5 : qa = qa') (h6 : qb = qb') (h7 : url = url') :
    Compare a b = Compare a' b' ∧ format r = format r' ∧
    compareHandler store qa qb url = compareHandler store' qa' qb' url' := by
  subst h1
  subst h2
  subst h3
  subst h4
  subst h5
  subst h6
  subst h7
  exact ⟨rfl, rfl, rfl⟩

theorem pipeline_deterministic_witness :
    Compare ⟨"x", ""⟩ ⟨"y", ""⟩ = Compare ⟨"x", ""⟩ ⟨"y", ""⟩ ∧
    format [] = format [] ∧
    compareHandler (fun _ => .error .notFound) "1" "2" "/c" =
      compareHandler (fun _ => .error .notFound) "1" "2" "/c" :=
  pipeline_deterministic ⟨"x", ""⟩ ⟨"y", ""⟩ ⟨"x", ""⟩ ⟨"y", ""⟩ [] []
    (fun _ => .error .notFound) (fun _ => .error .notFound) "1" "2" "/c" "1" "2" "/c"
    rfl rfl rfl rfl rfl rfl rfl

theorem no_retry_after_failure_witness :
    ((compareHandler (fun _ => .error (.other "boom")) "1" "2" "/compare/").2 =
      [.findBenchmark 1] ∧
     (compareHandler (fun _ => .error (.other "boom")) "1" "2" "/compare/").1.status =
      if StoreErr.other "boom" = .notFound then 404 else 500) ∧
    ((showBenchmark (fun _ => .error .notFound) "/benchmarks/7".toList).map Prod.snd =
      some [.findBenchmark 7]) := by
  constructor
  · exact ((no_retry_after_failure (fun _ => .error (.other "boom")) "1" "2" "/compare/"
      "/benchmarks/7".toList "7".toList (.other "boom") ⟨"x", "y"⟩ ⟨"x", "y"⟩ "m").1
      (by decide) (by decide)).1 (by rfl)
  · exact (((no_retry_after_failure (fun _ => .error .notFound) "1" "2" "/compare/"
      "/benchmarks/7".toList "7".toList .notFound ⟨"x", "y"⟩ ⟨"x", "y"⟩ "m").2
      (by rfl) (by decide)) (by rfl)).1

end Benchsrv
